import Mathlib

/-!
Verification of the generic JSON-result rendering pipeline of
`src/static/script.js` (`displayResult`, `formatSuccessResult`,
`formatData`, `formatObject`).

The pipeline consumes a freshly parsed JSON value, so values are modelled
by the inductive `Json` below (numbers as integers; every number appearing
in the envelopes under study is integral).  Objects are modelled as ordered
association lists with pairwise-distinct keys, matching the enumeration
order of a parsed JavaScript object whose keys are not array indices.
A thrown `TypeError` (property access on `null`, `Object.entries(null)`)
is modelled by `Except.error ()`; an absent property (`undefined`) by
`Option.none`.
-/

inductive Json where
  | null
  | bool (b : Bool)
  | num (n : Int)
  | str (s : String)
  | arr (items : List Json)
  | obj (entries : List (String × Json))
deriving Repr

/-- JavaScript truthiness of a JSON value (`false`, `0`, `""`, `null` are
falsy; every array and object is truthy). -/
def jsTruthy : Json → Bool
  | .null => false
  | .bool b => b
  | .num n => n != 0
  | .str s => s != ""
  | .arr _ => true
  | .obj _ => true

/-- Truthiness of a possibly-`undefined` value (`undefined` is falsy). -/
def jsTruthyU : Option Json → Bool
  | none => false
  | some v => jsTruthy v

mutual
/-- JavaScript `String(v)` coercion, as used by template-literal
interpolation (`${value}`) in the source. -/
def jsToString : Json → String
  | .null => "null"
  | .bool b => if b then "true" else "false"
  | .num n => toString n
  | .str s => s
  | .arr items => jsArrJoin items
  | .obj _ => "[object Object]"

/-- `Array.prototype.join(",")` with `String()` on elements
(`null` elements become the empty string). -/
def jsArrJoin : List Json → String
  | [] => ""
  | v :: vs =>
    (match v with
     | .null => ""
     | w => jsToString w) ++
    (match vs with
     | [] => ""
     | ws => "," ++ jsArrJoin ws)
end

/-- Property access `v.k`: throws on `null`, looks the key up on objects,
and yields `undefined` on every other value (none of the accessed keys —
`status`, `success`, `data`, `result`, `metadata` — exists on strings,
arrays, numbers or booleans). -/
def getField : Json → String → Except Unit (Option Json)
  | .null, _ => .error ()
  | .obj l, k => .ok (List.lookup k l)
  | _, _ => .ok none

/-- `Object.entries(v)`: throws on `null`; an object yields its own
entries in order; an array yields index/value pairs; a string yields
index/character pairs; numbers and booleans yield no entries. -/
def jsEntries : Json → Except Unit (List (String × Json))
  | .null => .error ()
  | .obj l => .ok l
  | .arr items => .ok (items.enum.map fun p => (toString p.1, p.2))
  | .str s => .ok (s.data.enum.map fun p => (toString p.1, Json.str (String.mk [p.2])))
  | .bool _ => .ok []
  | .num _ => .ok []

/-- A regex word character (`\w` = `[A-Za-z0-9_]`). -/
def isWordChar (c : Char) : Bool := c.isAlphanum || c == '_'

/-- First step of key humanization: `key.replace(/_/g, " ")`. -/
def underscoresToSpaces (s : String) : String :=
  String.mk (s.data.map fun c => if c == '_' then ' ' else c)

/-- Second step of key humanization:
`.replace(/\b\w/g, l => l.toUpperCase())` — upper-case every word
character standing at a word boundary, i.e. preceded by a non-word
character or the start of the string.  The flag records whether the
previous character was a word character. -/
def upperAtWordStarts : Bool → List Char → List Char
  | _, [] => []
  | prevWord, c :: rest =>
    (if !prevWord && isWordChar c then c.toUpper else c) ::
      upperAtWordStarts (isWordChar c) rest

/-- Key humanization from `formatObject`:
`key.replace(/_/g, " ").replace(/\b\w/g, l => l.toUpperCase())`
(ASCII keys; `toUpperCase` is modelled by `Char.toUpper`). -/
def humanizeKey (k : String) : String :=
  String.mk (upperAtWordStarts false (underscoresToSpaces k).data)

/-- Indentation string of `JSON.stringify(·, null, 2)` at nesting depth
`d`: `2 * d` spaces. -/
def indentStr (d : Nat) : String := String.mk (List.replicate (2 * d) ' ')

/-- Lowercase hexadecimal digit. -/
def hexDigit (n : Nat) : Char :=
  if n < 10 then Char.ofNat (48 + n) else Char.ofNat (87 + n)

/-- JSON string escaping of a single character (`QuoteJSONString`). -/
def escapeJsonChar (c : Char) : String :=
  if c = '"' then "\\\""
  else if c = '\\' then "\\\\"
  else if c = '\x08' then "\\b"
  else if c = '\x09' then "\\t"
  else if c = '\x0a' then "\\n"
  else if c = '\x0c' then "\\f"
  else if c = '\x0d' then "\\r"
  else if c.toNat < 32 then
    "\\u00" ++ String.mk [hexDigit (c.toNat / 16), hexDigit (c.toNat % 16)]
  else String.mk [c]

/-- JSON string quoting. -/
def quoteJsonString (s : String) : String :=
  "\"" ++ String.join (s.data.map escapeJsonChar) ++ "\""

mutual
/-- `JSON.stringify(v, null, 2)` at nesting depth `d` (top-level calls use
`d = 0`); the closing bracket of a composite at depth `d` is indented by
`indentStr d`, its children by `indentStr (d+1)`. -/
def jsonStringify (d : Nat) : Json → String
  | .null => "null"
  | .bool b => if b then "true" else "false"
  | .num n => toString n
  | .str s => quoteJsonString s
  | .arr items =>
    match items with
    | [] => "[]"
    | _ => "[\n" ++ String.intercalate ",\n" (stringifyItems (d + 1) items) ++
           "\n" ++ indentStr d ++ "]"
  | .obj entries =>
    match entries with
    | [] => "\x7b\x7d"
    | _ => "\x7b\n" ++ String.intercalate ",\n" (stringifyProps (d + 1) entries) ++
           "\n" ++ indentStr d ++ "\x7d"

/-- The serialized, indented lines of array elements at depth `d`. -/
def stringifyItems (d : Nat) : List Json → List String
  | [] => []
  | v :: vs => (indentStr d ++ jsonStringify d v) :: stringifyItems d vs

/-- The serialized, indented `"key": value` lines of object entries at
depth `d`. -/
def stringifyProps (d : Nat) : List (String × Json) → List String
  | [] => []
  | (k, v) :: rest =>
    (indentStr d ++ quoteJsonString k ++ ": " ++ jsonStringify d v) ::
      stringifyProps d rest
end

/-! HTML fragments, verbatim from `src/static/script.js`. -/

/-- The success banner prepended by `formatSuccessResult`. -/
def successBannerHtml : String :=
  "<div style=\"color: #27ae60; font-weight: 600; margin-bottom: 15px;\">✅ Success</div>"

/-- Opening tag of one result card in `formatData`. -/
def cardOpenHtml : String := "<div class=\"result-card\">"

/-- Closing tag of one result card. -/
def cardCloseHtml : String := "</div>"

/-- The heading line `formatObject` emits for a nested object/array value. -/
def headingHtml (fk : String) : String :=
  "<div style=\"margin: 10px 0;\"><strong>" ++ fk ++ ":</strong></div>"

/-- The preformatted JSON block `formatObject` emits below such a heading. -/
def preBlockHtml (s : String) : String :=
  "<pre style=\"background: white; padding: 10px; border-radius: 5px;\">" ++ s ++ "</pre>"

/-- The single line `formatObject` emits for a scalar value. -/
def scalarLineHtml (fk v : String) : String :=
  "<p><strong>" ++ fk ++ ":</strong> " ++ v ++ "</p>"

/-- The plain `<pre>` wrapper of the raw-JSON paths. -/
def rawPreHtml (s : String) : String := "<pre>" ++ s ++ "</pre>"

/-- The metadata section of `formatSuccessResult`: border-separated block
labelled `Metadata:` holding the pretty-printed metadata. -/
def metadataSectionHtml (s : String) : String :=
  "<div style=\"margin-top: 15px; padding-top: 15px; border-top: 1px solid #ddd;\">" ++
  "<strong>Metadata:</strong>" ++
  "<pre style=\"margin-top: 10px;\">" ++ s ++ "</pre>" ++
  "</div>"

/-- The error path of `displayResult` (`isError = true`). -/
def errorHtml (msg : String) : String :=
  "<p style=\"color: #e74c3c; font-weight: 600;\">❌ Error: " ++ msg ++ "</p>"

/-- The `typeof value === "object" && value !== null` test of
`formatObject` (true exactly on arrays and objects). -/
def jsIsCompositeNonNull : Json → Bool
  | .arr _ => true
  | .obj _ => true
  | _ => false

/-- One iteration of the `formatObject` loop body for entry `(k, v)`:
humanize the key; a non-null object/array value becomes a heading plus a
verbatim pretty-printed JSON block, anything else a single
`Humanized Key: value` line. -/
def entryHtml (k : String) (v : Json) : String :=
  match v with
  | .arr _ | .obj _ =>
    headingHtml (humanizeKey k) ++ preBlockHtml (jsonStringify 0 v)
  | w => scalarLineHtml (humanizeKey k) (jsToString w)

/-- The `formatObject` loop over a ready entry list. -/
def formatEntries : List (String × Json) → String
  | [] => ""
  | (k, v) :: rest => entryHtml k v ++ formatEntries rest

/-- `formatObject(obj)`: `Object.entries` (which throws on `null`)
followed by the rendering loop. -/
def formatObject (v : Json) : Except Unit String := do
  let entries ← jsEntries v
  pure (formatEntries entries)

/-- The `data.forEach` loop of `formatData` over an array: each item is
wrapped in a result card; a throw inside `formatObject` aborts the whole
rendering. -/
def renderCards : List Json → Except Unit String
  | [] => .ok ""
  | item :: rest => do
    let body ← formatObject item
    let tail ← renderCards rest
    pure (cardOpenHtml ++ body ++ cardCloseHtml ++ tail)

/-- `formatData(data)`: arrays become card lists, objects go to
`formatObject` — and so does `null`, since `typeof null === "object"`,
where `Object.entries(null)` throws — and any other scalar becomes
`<p>${data}</p>`. -/
def formatData (v : Json) : Except Unit String :=
  match v with
  | .arr items => renderCards items
  | .obj l => formatObject (.obj l)
  | .null => formatObject .null
  | w => .ok ("<p>" ++ jsToString w ++ "</p>")

/-- Object spread `{ ...data }` as an entry list: objects keep their
entries, arrays and strings spread to index entries, primitives to
nothing. -/
def objSpread : Json → List (String × Json)
  | .obj l => l
  | .arr items => items.enum.map fun p => (toString p.1, p.2)
  | .str s => s.data.enum.map fun p => (toString p.1, Json.str (String.mk [p.2]))
  | _ => []

/-- `delete dataToShow.status; delete dataToShow.success;` on the spread
copy of the envelope. -/
def removeStatusSuccess (l : List (String × Json)) : List (String × Json) :=
  l.filter fun p => !(p.1 == "status") && !(p.1 == "success")

/-- The metadata block appended by `formatSuccessResult`
(`if (data.metadata) { ... }`): truthy metadata yields the bordered
section, falsy or absent metadata yields nothing. -/
def metaSectionOf : Option Json → String
  | some m => if jsTruthy m then metadataSectionHtml (jsonStringify 0 m) else ""
  | none => ""

/-- The `data.metadata` access plus the metadata block. -/
def metadataHtml (data : Json) : Except Unit String := do
  let mm ← getField data "metadata"
  pure (metaSectionOf mm)

/-- The `if (data.data) ... else if (data.result) ... else ...` body
selection of `formatSuccessResult`: `data` if truthy, else `result` if
truthy, else the whole envelope minus `status`/`success` as raw JSON. -/
def successBody (data : Json) : Except Unit String := do
  let dd ← getField data "data"
  if jsTruthyU dd then
    formatData (dd.getD Json.null)
  else
    let rr ← getField data "result"
    if jsTruthyU rr then
      formatData (rr.getD Json.null)
    else
      pure (rawPreHtml (jsonStringify 0 (Json.obj (removeStatusSuccess (objSpread data)))))

/-- `formatSuccessResult(data)`: success banner, then the selected body,
then the metadata section. -/
def formatSuccessResult (data : Json) : Except Unit String := do
  let body ← successBody data
  let meta ← metadataHtml data
  pure (successBannerHtml ++ body ++ meta)

/-- The strict comparison `data.status === "success"` (`undefined` and
every non-string value compare unequal to a string literal). -/
def strictEqSuccess : Option Json → Bool
  | some (.str s) => s == "success"
  | _ => false

/-- `displayResult(elementId, data, isError)`, modelled as the `innerHTML`
string it assigns to the display region (the DOM lookup and CSS-class
bookkeeping carry no data).  The error path prints the fixed error line;
otherwise `data.status === "success" || data.success` (short-circuit)
selects the success formatter, and everything else falls back to raw
indented JSON of the whole envelope. -/
def displayResult (data : Json) (isError : Bool) : Except Unit String :=
  if isError then
    .ok (errorHtml (jsToString data))
  else do
    let st ← getField data "status"
    if strictEqSuccess st then
      formatSuccessResult data
    else do
      let su ← getField data "success"
      if jsTruthyU su then
        formatSuccessResult data
      else
        pure (rawPreHtml (jsonStringify 0 data))

/-- The success-path condition of `displayResult` on an object envelope. -/
def isSuccessEnvelope (l : List (String × Json)) : Bool :=
  strictEqSuccess (List.lookup "status" l) || jsTruthyU (List.lookup "success" l)

/-- The body value `formatSuccessResult` selects on an object envelope:
`data` when truthy, else `result` when truthy, else none (fallback). -/
def selectedBody (l : List (String × Json)) : Option Json :=
  if jsTruthyU (List.lookup "data" l) then List.lookup "data" l
  else if jsTruthyU (List.lookup "result" l) then List.lookup "result" l
  else none

/-- Whether an item list contains a literal `null`. -/
def hasNullItem : List Json → Bool
  | [] => false
  | .null :: _ => true
  | _ :: rest => hasNullItem rest

/-- The selected success body is safe to render: it is not an array
containing a `null` element. -/
def selectedBodyOk (l : List (String × Json)) : Bool :=
  match selectedBody l with
  | some (.arr items) => !hasNullItem items
  | _ => true

/-- Whether `needle` matches at the start of `hay` (character lists). -/
def charsMatch : List Char → List Char → Bool
  | [], _ => true
  | _ :: _, [] => false
  | a :: as, b :: bs => a == b && charsMatch as bs

/-- Whether `needle` occurs anywhere inside `hay` (character lists). -/
def charsContain (needle : List Char) : List Char → Bool
  | [] => charsMatch needle []
  | c :: cs => charsMatch needle (c :: cs) || charsContain needle cs

/-- Substring occurrence on strings. -/
def strContains (needle hay : String) : Bool :=
  charsContain needle.data hay.data

/-- Concatenation of rendered card bodies, each wrapped in the card
markup of `formatData`: one card per body. -/
def joinCards : List String → String
  | [] => ""
  | r :: rs => (cardOpenHtml ++ r ++ cardCloseHtml) ++ joinCards rs

/-- Modelled from the spec's words (for comparison with `humanizeKey`):
a key "has only its first letter capitalized". -/
def specCapitalizeFirst (s : String) : String :=
  match s.data with
  | [] => ""
  | c :: cs => String.mk (c.toUpper :: cs)

/-! ### General lemmas about strings, substrings and `Except` -/

theorem strMk_data (s : String) : String.mk s.data = s := by
  cases s
  rfl

theorem strData_append (a b : String) : (a ++ b).data = a.data ++ b.data := by
  cases a
  cases b
  rfl

theorem charsMatch_self_append (n b : List Char) : charsMatch n (n ++ b) = true := by
  induction n with
  | nil => rfl
  | cons c cs ih => simp [charsMatch, ih]

theorem charsContain_of_match (n h : List Char) (hm : charsMatch n h = true) :
    charsContain n h = true := by
  cases h with
  | nil =>
    cases n with
    | nil => rfl
    | cons c cs => simp [charsMatch] at hm
  | cons c cs => simp [charsContain, hm]

theorem charsContain_append_left (x n hay : List Char) (h : charsContain n hay = true) :
    charsContain n (x ++ hay) = true := by
  induction x with
  | nil => exact h
  | cons c cs ih => simp [charsContain, ih]

theorem strContains_self_append (n b : String) : strContains n (n ++ b) = true := by
  unfold strContains
  rw [strData_append]
  exact charsContain_of_match _ _ (charsMatch_self_append _ _)

theorem strContains_append_left (s n t : String) (h : strContains n t = true) :
    strContains n (s ++ t) = true := by
  unfold strContains at h ⊢
  rw [strData_append]
  exact charsContain_append_left _ _ _ h

theorem except_bind_ok_fun {α β : Type} (x : Except Unit α) (f : α → β) :
    x.bind (fun a => Except.ok (f a)) = x.map f := by
  cases x <;> rfl

/-! ### Unfolding lemmas for the pipeline on object envelopes -/

theorem formatObject_obj (l : List (String × Json)) :
    formatObject (Json.obj l) = .ok (formatEntries l) := rfl

theorem metadataHtml_obj (l : List (String × Json)) :
    metadataHtml (Json.obj l) = .ok (metaSectionOf (List.lookup "metadata" l)) := rfl

theorem displayResult_obj (l : List (String × Json)) :
    displayResult (Json.obj l) false =
      if isSuccessEnvelope l then formatSuccessResult (Json.obj l)
      else .ok (rawPreHtml (jsonStringify 0 (Json.obj l))) := by
  have h : displayResult (Json.obj l) false =
      (if strictEqSuccess (List.lookup "status" l) then formatSuccessResult (Json.obj l)
       else if jsTruthyU (List.lookup "success" l) then formatSuccessResult (Json.obj l)
       else .ok (rawPreHtml (jsonStringify 0 (Json.obj l)))) := rfl
  rw [h]
  unfold isSuccessEnvelope
  cases strictEqSuccess (List.lookup "status" l) <;>
    cases jsTruthyU (List.lookup "success" l) <;> simp

theorem formatSuccessResult_obj (l : List (String × Json)) :
    formatSuccessResult (Json.obj l) =
      (match selectedBody l with
       | some d => formatData d
       | none => .ok (rawPreHtml (jsonStringify 0 (Json.obj (removeStatusSuccess l))))).bind
        (fun body => .ok (successBannerHtml ++ body ++
          metaSectionOf (List.lookup "metadata" l))) := by
  have h : formatSuccessResult (Json.obj l) =
      (successBody (Json.obj l)).bind
        (fun body => .ok (successBannerHtml ++ body ++
          metaSectionOf (List.lookup "metadata" l))) := rfl
  have hbody : successBody (Json.obj l) =
      (if jsTruthyU (List.lookup "data" l) then
        formatData ((List.lookup "data" l).getD Json.null)
       else if jsTruthyU (List.lookup "result" l) then
        formatData ((List.lookup "result" l).getD Json.null)
       else
        .ok (rawPreHtml (jsonStringify 0 (Json.obj (removeStatusSuccess l))))) := rfl
  rw [h, hbody]
  congr 1
  unfold selectedBody
  cases hd : List.lookup "data" l with
  | some d =>
    cases htd : jsTruthy d with
    | true => simp [jsTruthyU, htd]
    | false =>
      cases hr : List.lookup "result" l with
      | some r => cases htr : jsTruthy r <;> simp [jsTruthyU, htd, htr]
      | none => simp [jsTruthyU, htd]
  | none =>
    cases hr : List.lookup "result" l with
    | some r => cases htr : jsTruthy r <;> simp [jsTruthyU, htr]
    | none => simp [jsTruthyU]

theorem formatEntries_contains (l : List (String × Json)) (k : String) (v : Json)
    (h : (k, v) ∈ l) :
    strContains (entryHtml k v) (formatEntries l) = true := by
  induction l with
  | nil => cases h
  | cons p rest ih =>
    obtain ⟨pk, pv⟩ := p
    rcases List.mem_cons.mp h with heq | hmem
    · rw [← heq]
      exact strContains_self_append (entryHtml k v) (formatEntries rest)
    · exact strContains_append_left (entryHtml pk pv) _ (formatEntries rest) (ih hmem)

theorem formatObject_ok_of_ne_null (v : Json) (h : v ≠ Json.null) :
    ∃ s, formatObject v = .ok s := by
  cases v with
  | null => exact absurd rfl h
  | bool b => exact ⟨_, rfl⟩
  | num n => exact ⟨_, rfl⟩
  | str s => exact ⟨_, rfl⟩
  | arr items => exact ⟨_, rfl⟩
  | obj entries => exact ⟨_, rfl⟩

theorem renderCards_ok (items : List Json) (h : hasNullItem items = false) :
    ∃ s, renderCards items = .ok s := by
  induction items with
  | nil => exact ⟨"", rfl⟩
  | cons item rest ih =>
    have hnn : item ≠ Json.null := by
      intro he
      rw [he] at h
      simp [hasNullItem] at h
    have hrest : hasNullItem rest = false := by
      cases item <;> simp [hasNullItem] at h ⊢ <;> exact h
    obtain ⟨b, hb⟩ := formatObject_ok_of_ne_null item hnn
    obtain ⟨t, ht⟩ := ih hrest
    refine ⟨cardOpenHtml ++ b ++ cardCloseHtml ++ t, ?_⟩
    have hu : renderCards (item :: rest) =
        (formatObject item).bind (fun body =>
          (renderCards rest).bind (fun tail =>
            .ok (cardOpenHtml ++ body ++ cardCloseHtml ++ tail))) := rfl
    rw [hu, hb, ht]
    rfl

theorem formatData_ok_cases (v : Json) (hnn : v ≠ Json.null)
    (harr : ∀ items, v = Json.arr items → hasNullItem items = false) :
    ∃ s, formatData v = .ok s := by
  cases v with
  | null => exact absurd rfl hnn
  | arr items => exact renderCards_ok items (harr items rfl)
  | obj entries => exact ⟨_, rfl⟩
  | bool b => exact ⟨_, rfl⟩
  | num n => exact ⟨_, rfl⟩
  | str s => exact ⟨_, rfl⟩

theorem selectedBody_truthy (l : List (String × Json)) (d : Json)
    (h : selectedBody l = some d) : jsTruthy d = true := by
  unfold selectedBody at h
  split at h
  · rename_i hc
    rw [h] at hc
    exact hc
  · split at h
    · rename_i hc
      rw [h] at hc
      exact hc
    · simp at h

theorem lookup_removeStatusSuccess (l : List (String × Json)) :
    List.lookup "metadata" (removeStatusSuccess l) = List.lookup "metadata" l := by
  induction l with
  | nil => rfl
  | cons p rest ih =>
    obtain ⟨k, v⟩ := p
    by_cases hks : k = "status"
    · subst hks
      have h1 : removeStatusSuccess (("status", v) :: rest) = removeStatusSuccess rest := by
        simp [removeStatusSuccess, List.filter_cons]
      rw [h1, ih]
      rfl
    · by_cases hku : k = "success"
      · subst hku
        have h1 : removeStatusSuccess (("success", v) :: rest) = removeStatusSuccess rest := by
          simp [removeStatusSuccess, List.filter_cons]
        rw [h1, ih]
        rfl
      · have h1 : removeStatusSuccess ((k, v) :: rest) =
            (k, v) :: removeStatusSuccess rest := by
          simp [removeStatusSuccess, List.filter_cons, hks, hku]
        rw [h1]
        cases hmk : ("metadata" == k) with
        | true =>
          have : List.lookup "metadata" (((k, v) :: removeStatusSuccess rest)) = some v := by
            simp [List.lookup, hmk]
          rw [this]
          simp [List.lookup, hmk]
        | false =>
          have h2 : List.lookup "metadata" (((k, v) :: removeStatusSuccess rest)) =
              List.lookup "metadata" (removeStatusSuccess rest) := by
            simp [List.lookup, hmk]
          rw [h2, ih]
          simp [List.lookup, hmk]

theorem map_underscore_id (cs : List Char) (h : ∀ c ∈ cs, c.isAlphanum = true) :
    (cs.map fun c => if c == '_' then ' ' else c) = cs := by
  induction cs with
  | nil => rfl
  | cons c rest ih =>
    have hc := h c (List.mem_cons_self c rest)
    have hne : c ≠ '_' := by
      intro he
      rw [he] at hc
      exact absurd hc (by decide)
    simp only [List.map_cons, hne, if_false]
    have ih' := ih (fun x hx => h x (List.mem_cons_of_mem c hx))
    simp [hne]
    simpa using ih'

theorem upperAtWordStarts_all_word (cs : List Char)
    (h : ∀ c ∈ cs, isWordChar c = true) : upperAtWordStarts true cs = cs := by
  induction cs with
  | nil => rfl
  | cons c rest ih =>
    have hc : isWordChar c = true := h c (List.mem_cons_self c rest)
    simp [upperAtWordStarts, hc, ih (fun x hx => h x (List.mem_cons_of_mem c hx))]

/-! ### Claim theorems -/

/-- C1, counterexample: the claim asserts rendering is total "including
for arrays whose elements are null", but a success envelope whose `data`
is the array `[null]` makes `formatObject` call `Object.entries(null)`,
which raises a `TypeError` — the pipeline throws instead of returning a
string. -/
theorem displayResult_null_array_item_raises :
    displayResult
      (Json.obj [("status", Json.str "success"), ("data", Json.arr [Json.null])])
      false = .error () := rfl

/-- C1 (amended): for every object envelope, rendering with
`isError = false` terminates and returns a string provided the selected
success body (`data` if truthy, else `result` if truthy) is not an array
containing a `null` element; in that excluded case (and only through it)
`Object.entries(null)` raises.  Arrays of objects or of non-null
primitives, and every non-success envelope, always render. -/
theorem displayResult_total_on_safe_envelopes (l : List (String × Json))
    (h : selectedBodyOk l = true) :
    ∃ s, displayResult (Json.obj l) false = .ok s := by
  rw [displayResult_obj]
  cases hse : isSuccessEnvelope l with
  | false =>
    refine ⟨rawPreHtml (jsonStringify 0 (Json.obj l)), ?_⟩
    simp [hse]
  | true =>
    simp only [hse, if_true]
    rw [formatSuccessResult_obj]
    cases hb : selectedBody l with
    | none =>
      exact ⟨successBannerHtml ++
        rawPreHtml (jsonStringify 0 (Json.obj (removeStatusSuccess l))) ++
        metaSectionOf (List.lookup "metadata" l), rfl⟩
    | some d =>
      have hok : ∃ s, formatData d = .ok s := by
        have htr := selectedBody_truthy l d hb
        refine formatData_ok_cases d ?_ ?_
        · intro he
          rw [he] at htr
          exact absurd htr (by decide)
        · intro items he
          unfold selectedBodyOk at h
          rw [hb, he] at h
          simpa using h
      obtain ⟨s, hs⟩ := hok
      refine ⟨successBannerHtml ++ s ++ metaSectionOf (List.lookup "metadata" l), ?_⟩
      show (formatData d).bind (fun body =>
        Except.ok (successBannerHtml ++ body ++ metaSectionOf (List.lookup "metadata" l))) = _
      rw [hs]
      rfl

/-- C1 witness: a success envelope whose `data` is an array of non-null
values renders to a string. -/
theorem displayResult_total_on_safe_envelopes_witness :
    selectedBodyOk
      [("status", Json.str "success"), ("data", Json.arr [Json.num 1, Json.str "a"])] = true ∧
    ∃ s, displayResult
      (Json.obj [("status", Json.str "success"), ("data", Json.arr [Json.num 1, Json.str "a"])])
      false = .ok s :=
  ⟨rfl, displayResult_total_on_safe_envelopes _ rfl⟩

/-- C2, counterexample: the claim says `data` always takes precedence when
both `data` and `result` are present, but `if (data.data)` tests JS
truthiness, so a falsy `data` value (here `0`) hands the body over to
`result`: the envelope renders `result`'s value `"hi"`, not `data`'s
rendering `<p>0</p>`. -/
theorem formatSuccessResult_falsy_data_counterexample :
    formatSuccessResult
      (Json.obj [("status", Json.str "success"), ("data", Json.num 0),
                 ("result", Json.str "hi")]) =
      .ok (successBannerHtml ++ "<p>hi</p>") ∧
    formatData (Json.num 0) = .ok "<p>0</p>" ∧
    successBannerHtml ++ "<p>hi</p>" ≠ successBannerHtml ++ "<p>0</p>" :=
  ⟨rfl, rfl, by decide⟩

/-- C2 (amended): for every envelope containing both `data` and `result`
where the value of `data` is truthy, `formatSuccessResult` renders the
value of `data` as the success body and `result` is ignored (the
right-hand side does not depend on `result` at all). -/
theorem formatSuccessResult_truthy_data_precedence (l : List (String × Json)) (d : Json)
    (hd : List.lookup "data" l = some d) (ht : jsTruthy d = true) :
    formatSuccessResult (Json.obj l) =
      (formatData d).bind (fun body =>
        .ok (successBannerHtml ++ body ++ metaSectionOf (List.lookup "metadata" l))) := by
  rw [formatSuccessResult_obj]
  congr 1
  unfold selectedBody
  rw [hd]
  simp [jsTruthyU, ht]

/-- C2 witness: with `data: 1` and `result: "x"`, the body is the
rendering of `data`. -/
theorem formatSuccessResult_truthy_data_precedence_witness :
    formatSuccessResult (Json.obj [("data", Json.num 1), ("result", Json.str "x")]) =
      (formatData (Json.num 1)).bind (fun body =>
        .ok (successBannerHtml ++ body ++
          metaSectionOf (List.lookup "metadata" [("data", Json.num 1), ("result", Json.str "x")]))) :=
  formatSuccessResult_truthy_data_precedence _ _ rfl rfl

/-- C3, counterexample: the claim quantifies over every envelope that
"has a metadata field", but `if (data.metadata)` tests JS truthiness, so
a falsy `metadata` value (here `0`) produces no Metadata section at all:
the rendered fragment does not contain the string `Metadata`. -/
theorem formatSuccessResult_falsy_metadata_counterexample :
    formatSuccessResult
      (Json.obj [("status", Json.str "success"), ("data", Json.num 1),
                 ("metadata", Json.num 0)]) =
      .ok (successBannerHtml ++ "<p>1</p>") ∧
    strContains "Metadata" (successBannerHtml ++ "<p>1</p>") = false :=
  ⟨rfl, rfl⟩

/-- C3 (amended): for every success envelope whose `metadata` field is
truthy, whatever fragment `formatSuccessResult` returns ends with the
fixed Metadata section — the border-separated block labelled `Metadata:`
holding the pretty-printed metadata — after the main body, regardless of
the field's position in the envelope. -/
theorem formatSuccessResult_truthy_metadata_section (l : List (String × Json)) (m : Json)
    (out : String) (hm : List.lookup "metadata" l = some m) (ht : jsTruthy m = true)
    (hout : formatSuccessResult (Json.obj l) = .ok out) :
    ∃ body, out = successBannerHtml ++ body ++ metadataSectionHtml (jsonStringify 0 m) := by
  rw [formatSuccessResult_obj, hm] at hout
  have hms : metaSectionOf (some m) = metadataSectionHtml (jsonStringify 0 m) := by
    simp [metaSectionOf, ht]
  rw [hms] at hout
  cases hb : (match selectedBody l with
      | some d => formatData d
      | none => Except.ok (rawPreHtml (jsonStringify 0 (Json.obj (removeStatusSuccess l))))) with
  | error e =>
    rw [hb] at hout
    simp [Except.bind] at hout
  | ok body =>
    rw [hb] at hout
    simp [Except.bind] at hout
    exact ⟨body, hout.symm⟩

/-- C3 witness: `metadata` in the middle of the envelope still produces
the trailing Metadata section. -/
theorem formatSuccessResult_truthy_metadata_section_witness :
    ∃ body, successBannerHtml ++ "<p>1</p>" ++ metadataSectionHtml (jsonStringify 0 (Json.num 3)) =
      successBannerHtml ++ body ++ metadataSectionHtml (jsonStringify 0 (Json.num 3)) :=
  formatSuccessResult_truthy_metadata_section
    [("status", Json.str "success"), ("metadata", Json.num 3), ("data", Json.num 1)]
    (Json.num 3)
    (successBannerHtml ++ "<p>1</p>" ++ metadataSectionHtml (jsonStringify 0 (Json.num 3)))
    rfl rfl rfl

/-- C4: for every key of a rendered mapping whose value is a non-null
mapping or sequence, `formatObject` emits exactly the humanized key as a
heading followed by the value pretty-printed verbatim
(`JSON.stringify(value, null, 2)`, a fresh top-level serialization, so
keys nested below that level are not humanized), and this heading/block
pair occurs in the output for the whole mapping. -/
theorem formatObject_nested_value_block (l : List (String × Json)) (k : String) (v : Json)
    (hmem : (k, v) ∈ l) (hcomp : jsIsCompositeNonNull v = true) :
    formatObject (Json.obj l) = .ok (formatEntries l) ∧
    entryHtml k v = headingHtml (humanizeKey k) ++ preBlockHtml (jsonStringify 0 v) ∧
    strContains (headingHtml (humanizeKey k) ++ preBlockHtml (jsonStringify 0 v))
      (formatEntries l) = true := by
  have he : entryHtml k v = headingHtml (humanizeKey k) ++ preBlockHtml (jsonStringify 0 v) := by
    cases v with
    | arr items => rfl
    | obj entries => rfl
    | null => simp [jsIsCompositeNonNull] at hcomp
    | bool b => simp [jsIsCompositeNonNull] at hcomp
    | num n => simp [jsIsCompositeNonNull] at hcomp
    | str s => simp [jsIsCompositeNonNull] at hcomp
  exact ⟨rfl, he, he ▸ formatEntries_contains l k v hmem⟩

/-- C4 witness: the `routes` key with an array value renders as heading
plus verbatim JSON block. -/
theorem formatObject_nested_value_block_witness :
    formatObject (Json.obj [("routes", Json.arr [Json.num 1])]) =
      .ok (formatEntries [("routes", Json.arr [Json.num 1])]) ∧
    entryHtml "routes" (Json.arr [Json.num 1]) =
      headingHtml (humanizeKey "routes") ++
        preBlockHtml (jsonStringify 0 (Json.arr [Json.num 1])) ∧
    strContains
      (headingHtml (humanizeKey "routes") ++
        preBlockHtml (jsonStringify 0 (Json.arr [Json.num 1])))
      (formatEntries [("routes", Json.arr [Json.num 1])]) = true :=
  formatObject_nested_value_block _ "routes" (Json.arr [Json.num 1])
    (List.Mem.head _) rfl

/-- C5, counterexample: the claim says a key with no underscores changes
only in its first letter, but the regex `\b\w` matches after every
non-word character, so `a-b` (no underscores) humanizes to `A-B`, not to
the first-letter-only `A-b`. -/
theorem humanizeKey_hyphen_counterexample :
    humanizeKey "a-b" = "A-B" ∧
    specCapitalizeFirst "a-b" = "A-b" ∧
    ("A-B" : String) ≠ "A-b" :=
  ⟨rfl, rfl, by decide⟩

/-- C5 (amended): key humanization replaces every underscore with a space
and upper-cases every word character at a word boundary, so
`min_intensity ↦ Min Intensity` and `origin ↦ Origin`; for every key made
of alphanumeric characters only (no underscores and no other separators)
the result differs from the key only in having its first letter
capitalized. -/
theorem humanizeKey_capitalize :
    humanizeKey "min_intensity" = "Min Intensity" ∧
    humanizeKey "origin" = "Origin" ∧
    ∀ s : String, (∀ c ∈ s.data, c.isAlphanum = true) →
      humanizeKey s = specCapitalizeFirst s := by
  refine ⟨rfl, rfl, ?_⟩
  intro s hs
  obtain ⟨cs⟩ := s
  have hdata : (underscoresToSpaces ⟨cs⟩).data = cs := by
    show (cs.map fun c => if c == '_' then ' ' else c) = cs
    exact map_underscore_id cs hs
  unfold humanizeKey
  rw [hdata]
  cases cs with
  | nil => rfl
  | cons c rest =>
    have hw : isWordChar c = true := by
      simp [isWordChar, hs c (List.mem_cons_self c rest)]
    have hrest : upperAtWordStarts true rest = rest :=
      upperAtWordStarts_all_word rest (fun x hx => by
        simp [isWordChar, hs x (List.mem_cons_of_mem c hx)])
    show String.mk (upperAtWordStarts false (c :: rest)) = _
    have hred : upperAtWordStarts false (c :: rest) = c.toUpper :: rest := by
      simp [upperAtWordStarts, hw, hrest]
    rw [hred]
    rfl

/-- C5 witness: an all-alphanumeric key gets exactly its first letter
capitalized. -/
theorem humanizeKey_capitalize_witness :
    humanizeKey "abc" = specCapitalizeFirst "abc" :=
  humanizeKey_capitalize.2.2 "abc" (by decide)

/-- C6: for every sequence rendered by `formatData`, the output is a
concatenation of result cards — one card (`<div class="result-card">`
... `</div>`) per element — so the number of cards equals the length of
the sequence, and the empty sequence renders zero cards and no
empty-state message (the output is empty). -/
theorem formatData_card_count :
    (∀ (items : List Json) (s : String), formatData (Json.arr items) = .ok s →
      ∃ rs : List String, rs.length = items.length ∧ s = joinCards rs) ∧
    formatData (Json.arr []) = .ok "" := by
  refine ⟨?_, rfl⟩
  intro items
  induction items with
  | nil =>
    intro s hs
    refine ⟨[], rfl, ?_⟩
    injection hs with h
    exact h.symm
  | cons item rest ih =>
    intro s hs
    have hu : formatData (Json.arr (item :: rest)) =
        (formatObject item).bind (fun body =>
          (renderCards rest).bind (fun tail =>
            .ok (cardOpenHtml ++ body ++ cardCloseHtml ++ tail))) := rfl
    rw [hu] at hs
    cases hb : formatObject item with
    | error e =>
      rw [hb] at hs
      simp [Except.bind] at hs
    | ok body =>
      rw [hb] at hs
      cases htl : renderCards rest with
      | error e =>
        rw [htl] at hs
        simp [Except.bind] at hs
      | ok tail =>
        rw [htl] at hs
        simp only [Except.bind] at hs
        injection hs with h
        obtain ⟨rs, hlen, hjoin⟩ := ih tail htl
        refine ⟨body :: rs, by simp [hlen], ?_⟩
        rw [← h, hjoin]
        rfl

/-- C6 witness: a one-element sequence renders one card. -/
theorem formatData_card_count_witness :
    ∃ rs : List String,
      rs.length = ([Json.obj [("city", Json.str "Beirut")]] : List Json).length ∧
      "<div class=\"result-card\"><p><strong>City:</strong> Beirut</p></div>" = joinCards rs :=
  formatData_card_count.1 [Json.obj [("city", Json.str "Beirut")]] _ rfl

theorem statusFalsy_not_success (o : Option Json) (h : jsTruthyU o = false) :
    strictEqSuccess o = false := by
  cases o with
  | none => rfl
  | some v =>
    cases v with
    | str s =>
      have hs : s = "" := by simpa [jsTruthyU, jsTruthy] using h
      rw [hs]
      rfl
    | null => rfl
    | bool b => rfl
    | num n => rfl
    | arr items => rfl
    | obj entries => rfl

/-- C7: for every envelope without `data` and `result` whose `status` and
`success` fields are falsy or absent, `displayResult` renders the entire
envelope as raw indented JSON inside a `<pre>` block. -/
theorem displayResult_fallback_raw_json (l : List (String × Json))
    (_hd : List.lookup "data" l = none) (_hr : List.lookup "result" l = none)
    (hst : jsTruthyU (List.lookup "status" l) = false)
    (hsu : jsTruthyU (List.lookup "success" l) = false) :
    displayResult (Json.obj l) false = .ok (rawPreHtml (jsonStringify 0 (Json.obj l))) := by
  rw [displayResult_obj]
  have h1 : isSuccessEnvelope l = false := by
    unfold isSuccessEnvelope
    rw [statusFalsy_not_success _ hst, hsu]
    rfl
  simp [h1]

/-- C7 witness: scenario D — an envelope holding only `weird_field: "x"`
renders as raw pretty-printed JSON. -/
theorem displayResult_fallback_raw_json_witness :
    displayResult (Json.obj [("weird_field", Json.str "x")]) false =
      .ok (rawPreHtml (jsonStringify 0 (Json.obj [("weird_field", Json.str "x")]))) :=
  displayResult_fallback_raw_json _ rfl rfl rfl rfl

/-- C8: for every key of a rendered mapping whose value is `null`,
`formatObject` treats the value as a scalar — `typeof null === "object"`
but the `value !== null` guard fails — and emits the single line
`<p><strong>Humanized Key:</strong> null</p>`, not a nested JSON block. -/
theorem formatObject_null_scalar_line (l : List (String × Json)) (k : String)
    (hmem : (k, Json.null) ∈ l) :
    formatObject (Json.obj l) = .ok (formatEntries l) ∧
    entryHtml k Json.null = scalarLineHtml (humanizeKey k) "null" ∧
    strContains (scalarLineHtml (humanizeKey k) "null") (formatEntries l) = true := by
  have he : entryHtml k Json.null = scalarLineHtml (humanizeKey k) "null" := rfl
  exact ⟨rfl, he, he ▸ formatEntries_contains l k Json.null hmem⟩

/-- C8 witness: a `null`-valued key renders as a scalar line. -/
theorem formatObject_null_scalar_line_witness :
    formatObject (Json.obj [("value", Json.null)]) =
      .ok (formatEntries [("value", Json.null)]) ∧
    entryHtml "value" Json.null = scalarLineHtml (humanizeKey "value") "null" ∧
    strContains (scalarLineHtml (humanizeKey "value") "null")
      (formatEntries [("value", Json.null)]) = true :=
  formatObject_null_scalar_line _ "value" (List.Mem.head _)

/-- C9: `displayResult` with `isError = false` takes the success path
exactly when `status` is the string `"success"` (strict equality) or
`success` is truthy under JS truthiness — so any truthy non-boolean
`success` (such as the non-empty string `"yes"`) triggers success
rendering, while every other envelope goes to the raw-JSON path. -/
theorem displayResult_success_path_condition :
    (∀ l : List (String × Json),
      displayResult (Json.obj l) false =
        if strictEqSuccess (List.lookup "status" l) || jsTruthyU (List.lookup "success" l)
        then formatSuccessResult (Json.obj l)
        else .ok (rawPreHtml (jsonStringify 0 (Json.obj l)))) ∧
    displayResult (Json.obj [("success", Json.str "yes"), ("data", Json.num 5)]) false =
      formatSuccessResult (Json.obj [("success", Json.str "yes"), ("data", Json.num 5)]) := by
  constructor
  · intro l
    exact displayResult_obj l
  · rfl

/-- C10, counterexample: the claim quantifies over every success envelope
that "has a metadata field", but a falsy `metadata` (here `null`) yields
no Metadata section: the content appears only once, inside the
pretty-printed body, and the fragment contains no `Metadata` label. -/
theorem displayResult_falsy_metadata_once_counterexample :
    displayResult (Json.obj [("success", Json.bool true), ("metadata", Json.null)]) false =
      .ok (successBannerHtml ++
        rawPreHtml (jsonStringify 0 (Json.obj [("metadata", Json.null)]))) ∧
    strContains "Metadata"
      (successBannerHtml ++
        rawPreHtml (jsonStringify 0 (Json.obj [("metadata", Json.null)]))) = false :=
  ⟨rfl, rfl⟩

/-- C10 (amended): for every success envelope with a truthy `metadata`
field and no `data`/`result`, the metadata appears twice in the fragment:
the body is the pretty-printed envelope minus only `status`/`success`
(which still contains the `metadata` entry), and the trailing Metadata
section pretty-prints the same value again. -/
theorem displayResult_truthy_metadata_twice (l : List (String × Json)) (m : Json)
    (hm : List.lookup "metadata" l = some m) (ht : jsTruthy m = true)
    (hd : List.lookup "data" l = none) (hr : List.lookup "result" l = none)
    (hs : isSuccessEnvelope l = true) :
    displayResult (Json.obj l) false =
      .ok (successBannerHtml ++
        rawPreHtml (jsonStringify 0 (Json.obj (removeStatusSuccess l))) ++
        metadataSectionHtml (jsonStringify 0 m)) ∧
    List.lookup "metadata" (removeStatusSuccess l) = some m := by
  constructor
  · rw [displayResult_obj]
    simp only [hs, if_true]
    rw [formatSuccessResult_obj]
    have hsel : selectedBody l = none := by
      unfold selectedBody
      rw [hd, hr]
      rfl
    rw [hsel, hm]
    have hms : metaSectionOf (some m) = metadataSectionHtml (jsonStringify 0 m) := by
      simp [metaSectionOf, ht]
    rw [hms]
    rfl
  · rw [lookup_removeStatusSuccess]
    exact hm

/-- C10 witness: `success: true` with `metadata: 3` renders the metadata
both in the body JSON and in the Metadata section. -/
theorem displayResult_truthy_metadata_twice_witness :
    (displayResult (Json.obj [("success", Json.bool true), ("metadata", Json.num 3)]) false =
      .ok (successBannerHtml ++
        rawPreHtml (jsonStringify 0
          (Json.obj (removeStatusSuccess [("success", Json.bool true), ("metadata", Json.num 3)]))) ++
        metadataSectionHtml (jsonStringify 0 (Json.num 3)))) ∧
    List.lookup "metadata"
      (removeStatusSuccess [("success", Json.bool true), ("metadata", Json.num 3)]) =
      some (Json.num 3) :=
  displayResult_truthy_metadata_twice _ _ rfl rfl rfl rfl rfl
